import Mathlib

/-
Verification of the message-stream reconciliation and presentation pipeline
of the TransChat repository.

The definitions below are a shallow embedding of the TypeScript source:
  - src/src/components/Chat/ChatWindow.tsx (conversation view: deletion and
    block filtering, translation overlay, read-state tracking, grouping with
    date and unread separators);
  - src/unnamed/part_000 (ChatList: chat aggregation).
Each definition's doc comment names the source location it embeds.
-/

namespace TransChat

/-- A calendar timestamp, as observed through the JavaScript `Date` accessors
used by the source (`getFullYear`, `getMonth`, `getDate`); `time` is the
remaining time-of-day information, relevant only to ordering.  `month` is
0-based as in JavaScript. -/
structure Date where
  year : Nat
  month : Nat
  day : Nat
  time : Nat
deriving DecidableEq, Repr

/-- The `Message` record of the data model (spec section 3; fields as used by
ChatWindow.tsx and listed for the backing type). -/
structure Message where
  id : String
  senderId : String
  originalText : Option String
  translatedText : Option String
  mediaUrl : Option String
  mediaType : Option String
  fileName : Option String
  fileSize : Option Nat
  timestamp : Date
  replyToId : Option String
  replyToName : Option String
  replyToText : Option String
deriving DecidableEq, Repr

/-- One item of the display sequence produced by the presentation grouper:
the tagged entries `{ type: 'message' | 'date' | 'unread' }` of
ChatWindow.tsx lines 244-267. -/
inductive DisplayItem where
  | date (d : Date)
  | unread
  | message (m : Message)
deriving DecidableEq, Repr

/-- ChatWindow.tsx lines 238-242: two dates fall on the same local calendar
day when year, month and day are all equal. -/
def isSameDay (date1 date2 : Date) : Bool :=
  date1.year == date2.year && date1.month == date2.month && date1.day == date2.day

/-- The loop body of `getMessagesWithDateSeparators` (ChatWindow.tsx lines
248-264), with the `forEach` turned into structural recursion: `prev` is
`messages[index - 1]` (none at index 0) and `unreadSeparatorAdded` is the
mutable flag of line 246. -/
def separatorsAux (unreadMessageIds : List String) :
    List Message → Option Message → Bool → List DisplayItem
  | [], _, _ => []
  | message :: rest, prev, unreadSeparatorAdded =>
    let dateItems : List DisplayItem :=
      match prev with
      | none => [DisplayItem.date message.timestamp]
      | some previousMessage =>
        if isSameDay previousMessage.timestamp message.timestamp then []
        else [DisplayItem.date message.timestamp]
    let addUnread := unreadMessageIds.contains message.id && !unreadSeparatorAdded
    dateItems ++ (if addUnread then [DisplayItem.unread] else []) ++
      (DisplayItem.message message ::
        separatorsAux unreadMessageIds rest (some message) (unreadSeparatorAdded || addUnread))

/-- ChatWindow.tsx lines 244-267: the presentation grouper, a pure function of
the message list and the unread-id set. -/
def getMessagesWithDateSeparators (messages : List Message) (unreadMessageIds : List String) :
    List DisplayItem :=
  separatorsAux unreadMessageIds messages none false

/-- Number of `date` markers in a display sequence. -/
def countDates (items : List DisplayItem) : Nat :=
  (items.filter fun it => match it with | DisplayItem.date _ => true | _ => false).length

/-- Number of `unread` markers in a display sequence. -/
def countUnread (items : List DisplayItem) : Nat :=
  (items.filter fun it => match it with | DisplayItem.unread => true | _ => false).length

/-- The subsequence of `message` items of a display sequence. -/
def extractMessages (items : List DisplayItem) : List Message :=
  items.filterMap fun it => match it with | DisplayItem.message m => some m | _ => none

/-- A display sequence with the unread marker removed. -/
def eraseUnread (items : List DisplayItem) : List DisplayItem :=
  items.filter fun it => match it with | DisplayItem.unread => false | _ => true

/-- The (year, month, day) component of a date: the data compared by
`isSameDay`. -/
def dayTriple (d : Date) : Nat × Nat × Nat :=
  (d.year, d.month, d.day)

/-- Strict lexicographic order on day triples. -/
def tripleLT (a b : Nat × Nat × Nat) : Prop :=
  a.1 < b.1 ∨ (a.1 = b.1 ∧ (a.2.1 < b.2.1 ∨ (a.2.1 = b.2.1 ∧ a.2.2 < b.2.2)))

instance (a b : Nat × Nat × Nat) : Decidable (tripleLT a b) := by
  unfold tripleLT; infer_instance

/-- `a` falls on a strictly earlier calendar day than `b`. -/
def dayLT (a b : Date) : Bool :=
  decide (a.year < b.year) ||
    (a.year == b.year &&
      (decide (a.month < b.month) || (a.month == b.month && decide (a.day < b.day))))

/-- Timestamp order as the source assumes it from the backend: earlier
calendar day, or same calendar day and no later time of day. -/
def dateLE (a b : Date) : Bool :=
  dayLT a b || (isSameDay a b && decide (a.time ≤ b.time))

/-- Number of distinct local calendar days spanned by a message sequence. -/
def distinctDayCount (messages : List Message) : Nat :=
  ((messages.map fun m => dayTriple m.timestamp).toFinset).card

/-- Number of positions at which the grouper's scan opens a new calendar day,
relative to an optional previous day. -/
def keyChanges : Option (Nat × Nat × Nat) → List (Nat × Nat × Nat) → Nat
  | _, [] => 0
  | none, k :: rest => 1 + keyChanges (some k) rest
  | some p, k :: rest => (if p = k then 0 else 1) + keyChanges (some k) rest

/-- The first message of a list falling on the calendar day of `d`. -/
def firstOfDay (messages : List Message) (d : Date) : Option Message :=
  messages.find? fun m => isSameDay m.timestamp d

/-- Checks that in a display sequence every `date` marker is immediately
followed by a `message` item, that this message carries the marker's
timestamp, and that it is the first message of `messages` falling on that
calendar day. -/
def datesPrecedeFirsts (messages : List Message) : List DisplayItem → Bool
  | [] => true
  | DisplayItem.date d :: rest =>
    match rest with
    | DisplayItem.message m :: _ =>
      decide (m.timestamp = d) && decide (firstOfDay messages d = some m) &&
        datesPrecedeFirsts messages rest
    | _ => false
  | DisplayItem.unread :: rest => datesPrecedeFirsts messages rest
  | DisplayItem.message _ :: rest => datesPrecedeFirsts messages rest

/-! Elementary facts about calendar-day comparison. -/

theorem isSameDay_iff (a b : Date) : isSameDay a b = true ↔ dayTriple a = dayTriple b := by
  simp [isSameDay, dayTriple, Prod.ext_iff, and_assoc]

theorem dayLT_iff (a b : Date) : dayLT a b = true ↔ tripleLT (dayTriple a) (dayTriple b) := by
  simp [dayLT, tripleLT, dayTriple]

theorem tripleLT_trans {a b c : Nat × Nat × Nat} (h1 : tripleLT a b) (h2 : tripleLT b c) :
    tripleLT a c := by
  unfold tripleLT at *; omega

theorem tripleLT_irrefl (a : Nat × Nat × Nat) : ¬ tripleLT a a := by
  unfold tripleLT; omega

theorem dateLE_cases {a b : Date} (h : dateLE a b = true) :
    isSameDay a b = true ∨ dayLT a b = true := by
  simp [dateLE] at h
  rcases h with h | h
  · exact Or.inr h
  · exact Or.inl h.1

/-- `a = b ∨ tripleLT a b`: how one calendar day can relate to a no earlier
one. -/
def tripleLE (a b : Nat × Nat × Nat) : Prop :=
  a = b ∨ tripleLT a b

theorem tripleLE_trans {a b c : Nat × Nat × Nat} (h1 : tripleLE a b) (h2 : tripleLE b c) :
    tripleLE a c := by
  rcases h1 with rfl | h1
  · exact h2
  · rcases h2 with rfl | h2
    · exact Or.inr h1
    · exact Or.inr (tripleLT_trans h1 h2)

theorem dateLE_tripleLE {a b : Date} (h : dateLE a b = true) :
    tripleLE (dayTriple a) (dayTriple b) := by
  rcases dateLE_cases h with h | h
  · exact Or.inl ((isSameDay_iff a b).mp h)
  · exact Or.inr ((dayLT_iff a b).mp h)

theorem chain_tripleLE_all {k : Nat × Nat × Nat} :
    ∀ {ks : List (Nat × Nat × Nat)}, List.Chain' tripleLE (k :: ks) →
      ∀ x ∈ ks, tripleLE k x := by
  intro ks
  induction ks generalizing k with
  | nil => intro _ x hx; cases hx
  | cons k1 t ih =>
    intro h x hx
    rw [List.chain'_cons] at h
    rcases List.mem_cons.mp hx with rfl | hx
    · exact h.1
    · exact tripleLE_trans h.1 (ih h.2 x hx)

/-! Unfolding equations, stated once so that later proofs can rewrite with
them. -/

theorem separatorsAux_nil (u : List String) (prev : Option Message) (added : Bool) :
    separatorsAux u [] prev added = [] := rfl

theorem separatorsAux_cons (u : List String) (m : Message) (rest : List Message)
    (prev : Option Message) (added : Bool) :
    separatorsAux u (m :: rest) prev added =
      (match prev with
       | none => [DisplayItem.date m.timestamp]
       | some p =>
         if isSameDay p.timestamp m.timestamp then [] else [DisplayItem.date m.timestamp]) ++
      (if u.contains m.id && !added then [DisplayItem.unread] else []) ++
      (DisplayItem.message m ::
        separatorsAux u rest (some m) (added || (u.contains m.id && !added))) := rfl

theorem keyChanges_nil (prev : Option (Nat × Nat × Nat)) : keyChanges prev [] = 0 := by
  cases prev <;> rfl

theorem keyChanges_cons_none (k : Nat × Nat × Nat) (rest : List (Nat × Nat × Nat)) :
    keyChanges none (k :: rest) = 1 + keyChanges (some k) rest := rfl

theorem keyChanges_cons_some (p k : Nat × Nat × Nat) (rest : List (Nat × Nat × Nat)) :
    keyChanges (some p) (k :: rest) =
      (if p = k then 0 else 1) + keyChanges (some k) rest := rfl

/-! Counting date markers. -/

theorem countDates_append (l1 l2 : List DisplayItem) :
    countDates (l1 ++ l2) = countDates l1 + countDates l2 := by
  simp [countDates, List.filter_append]

theorem countDates_aux (u : List String) :
    ∀ (msgs : List Message) (prev : Option Message) (added : Bool),
      countDates (separatorsAux u msgs prev added) =
        keyChanges (prev.map fun m => dayTriple m.timestamp)
          (msgs.map fun m => dayTriple m.timestamp) := by
  intro msgs
  induction msgs with
  | nil =>
    intro prev added
    cases prev <;> simp [separatorsAux_nil, keyChanges_nil, countDates]
  | cons m rest ih =>
    intro prev added
    rw [separatorsAux_cons, countDates_append, countDates_append]
    have hu : countDates (if u.contains m.id && !added then [DisplayItem.unread] else []) = 0 := by
      split <;> simp [countDates]
    have hm : countDates (DisplayItem.message m ::
        separatorsAux u rest (some m) (added || (u.contains m.id && !added))) =
        countDates (separatorsAux u rest (some m) (added || (u.contains m.id && !added))) := by
      simp [countDates]
    rw [hu, hm, ih]
    cases prev with
    | none => simp [countDates, keyChanges_cons_none]
    | some p =>
      simp only [Option.map_some', List.map_cons]
      rw [keyChanges_cons_some]
      by_cases hsd : isSameDay p.timestamp m.timestamp = true
      · have heq : dayTriple p.timestamp = dayTriple m.timestamp := (isSameDay_iff _ _).mp hsd
        rw [if_pos heq]
        simp [hsd, countDates]
      · have hne : dayTriple p.timestamp ≠ dayTriple m.timestamp := fun he =>
          hsd ((isSameDay_iff _ _).mpr he)
        rw [if_neg hne]
        simp [hsd, countDates]

theorem card_insert_erase {α : Type} [DecidableEq α] (a : α) (s : Finset α) :
    (insert a s).card = (s.erase a).card + 1 := by
  by_cases h : a ∈ s
  · rw [Finset.insert_eq_self.mpr h, ← Finset.card_erase_add_one h]
  · rw [Finset.card_insert_of_not_mem h, Finset.erase_eq_of_not_mem h]

theorem keyChanges_some :
    ∀ (ks : List (Nat × Nat × Nat)) (k : Nat × Nat × Nat),
      List.Chain' tripleLE (k :: ks) →
      keyChanges (some k) ks = (ks.toFinset.erase k).card := by
  intro ks
  induction ks with
  | nil => intro k _; simp [keyChanges]
  | cons k1 t ih =>
    intro k h
    rw [List.chain'_cons] at h
    obtain ⟨hk, ht⟩ := h
    have iht := ih k1 ht
    by_cases he : k = k1
    · subst he
      rw [keyChanges_cons_some, if_pos rfl, iht, List.toFinset_cons,
        Finset.erase_insert_eq_erase]
      omega
    · have hlt : tripleLT k k1 := hk.resolve_left he
      have hknot : k ∉ t.toFinset := by
        rw [List.mem_toFinset]
        intro hmem
        rcases chain_tripleLE_all ht k hmem with rfl | h2
        · exact he rfl
        · exact tripleLT_irrefl k (tripleLT_trans hlt h2)
      have hne : k1 ≠ k := fun hh => he hh.symm
      rw [keyChanges_cons_some, if_neg he, iht, List.toFinset_cons,
        Finset.erase_insert_of_ne hne, Finset.erase_eq_of_not_mem hknot,
        card_insert_erase]
      omega

theorem keyChanges_none :
    ∀ (ks : List (Nat × Nat × Nat)), List.Chain' tripleLE ks →
      keyChanges none ks = ks.toFinset.card := by
  intro ks h
  cases ks with
  | nil => simp [keyChanges_nil]
  | cons k t =>
    rw [keyChanges_cons_none, keyChanges_some t k h, List.toFinset_cons, card_insert_erase]
    omega

/-! Placement of date markers. -/

theorem isSameDay_refl (a : Date) : isSameDay a a = true := by
  simp [isSameDay]

theorem contains_nil_str (s : String) : (([] : List String)).contains s = false := rfl

theorem datesPrecedeFirsts_nil (msgs : List Message) : datesPrecedeFirsts msgs [] = true := rfl

theorem datesPrecedeFirsts_message (msgs : List Message) (m : Message)
    (rest : List DisplayItem) :
    datesPrecedeFirsts msgs (DisplayItem.message m :: rest) = datesPrecedeFirsts msgs rest := rfl

theorem datesPrecedeFirsts_unread (msgs : List Message) (rest : List DisplayItem) :
    datesPrecedeFirsts msgs (DisplayItem.unread :: rest) = datesPrecedeFirsts msgs rest := rfl

theorem datesPrecedeFirsts_date_message (msgs : List Message) (d : Date) (m : Message)
    (rest : List DisplayItem) :
    datesPrecedeFirsts msgs (DisplayItem.date d :: DisplayItem.message m :: rest) =
      (decide (m.timestamp = d) && decide (firstOfDay msgs d = some m) &&
        datesPrecedeFirsts msgs (DisplayItem.message m :: rest)) := rfl

theorem datesPrecede_aux :
    ∀ (suffix pre : List Message) (prev : Option Message) (added : Bool),
      List.Chain' (fun a b => dateLE a.timestamp b.timestamp = true) suffix →
      (prev = none → pre = []) →
      (∀ p, prev = some p → ∀ x ∈ pre,
        tripleLE (dayTriple x.timestamp) (dayTriple p.timestamp)) →
      (∀ p m mrest, prev = some p → suffix = m :: mrest →
        dateLE p.timestamp m.timestamp = true) →
      datesPrecedeFirsts (pre ++ suffix) (separatorsAux [] suffix prev added) = true := by
  intro suffix
  induction suffix with
  | nil =>
    intro pre prev added _ _ _ _
    rw [separatorsAux_nil, datesPrecedeFirsts_nil]
  | cons m rest ih =>
    intro pre prev added hchain hnone hpre hlink
    have hchainrest : List.Chain' (fun a b => dateLE a.timestamp b.timestamp = true) rest :=
      hchain.tail
    have hlink2 : ∀ p m2 mr2, (some m : Option Message) = some p → rest = m2 :: mr2 →
        dateLE p.timestamp m2.timestamp = true := by
      intro p m2 mr2 hp hr
      cases hp
      subst hr
      exact (List.chain'_cons.mp hchain).1
    have hstep : ∀ x ∈ pre, tripleLE (dayTriple x.timestamp) (dayTriple m.timestamp) := by
      intro x hx
      cases prev with
      | none =>
        rw [hnone rfl] at hx
        cases hx
      | some p =>
        have h1 := hpre p rfl x hx
        have h2 : dateLE p.timestamp m.timestamp = true := hlink p m rest rfl rfl
        exact tripleLE_trans h1 (dateLE_tripleLE h2)
    have hprem : ∀ x ∈ pre ++ [m], tripleLE (dayTriple x.timestamp) (dayTriple m.timestamp) := by
      intro x hx
      rcases List.mem_append.mp hx with hx | hx
      · exact hstep x hx
      · rcases List.mem_singleton.mp hx with rfl
        exact Or.inl rfl
    have hrec : ∀ f : Bool, datesPrecedeFirsts (pre ++ m :: rest)
        (separatorsAux [] rest (some m) f) = true := by
      intro f
      have h := ih (pre ++ [m]) (some m) f hchainrest (fun h => nomatch h)
        (by intro p hp x hx; cases hp; exact hprem x hx) hlink2
      rwa [← List.append_cons] at h
    rw [separatorsAux_cons]
    cases prev with
    | none =>
      have hpre0 : pre = [] := hnone rfl
      subst hpre0
      have hfirst : firstOfDay (m :: rest) m.timestamp = some m := by
        unfold firstOfDay
        exact List.find?_cons_of_pos _ (isSameDay_refl m.timestamp)
      have hrec2 : ∀ f : Bool, datesPrecedeFirsts (m :: rest)
          (separatorsAux [] rest (some m) f) = true := by
        intro f
        have h := hrec f
        simpa using h
      simp only [contains_nil_str, Bool.false_and, Bool.or_false, if_neg Bool.false_ne_true,
        List.nil_append, List.singleton_append, datesPrecedeFirsts_date_message,
        datesPrecedeFirsts_message]
      simp [hfirst, hrec2]
    | some p =>
      by_cases hsd : isSameDay p.timestamp m.timestamp = true
      · simp only [hsd, if_true, contains_nil_str, Bool.false_and, Bool.or_false,
          if_neg Bool.false_ne_true, List.nil_append, List.append_nil,
          datesPrecedeFirsts_message]
        exact hrec added
      · have hday : dayLT p.timestamp m.timestamp = true := by
          rcases dateLE_cases (hlink p m rest rfl rfl) with h | h
          · exact absurd h hsd
          · exact h
        have hltpm : tripleLT (dayTriple p.timestamp) (dayTriple m.timestamp) :=
          (dayLT_iff _ _).mp hday
        have hnonepre :
            List.find? (fun x => isSameDay x.timestamp m.timestamp) pre = none := by
          rw [List.find?_eq_none]
          intro x hx hxm
          have h2 : tripleLT (dayTriple x.timestamp) (dayTriple m.timestamp) := by
            rcases hpre p rfl x hx with he | hlt
            · rw [he]; exact hltpm
            · exact tripleLT_trans hlt hltpm
          have heq : dayTriple x.timestamp = dayTriple m.timestamp := (isSameDay_iff _ _).mp hxm
          rw [heq] at h2
          exact tripleLT_irrefl _ h2
        have hfirst : firstOfDay (pre ++ m :: rest) m.timestamp = some m := by
          unfold firstOfDay
          rw [List.find?_append, hnonepre, Option.none_or]
          exact List.find?_cons_of_pos _ (isSameDay_refl m.timestamp)
        simp only [hsd, if_false, contains_nil_str, Bool.false_and, Bool.or_false,
          if_neg Bool.false_ne_true, List.nil_append, List.singleton_append,
          datesPrecedeFirsts_date_message, datesPrecedeFirsts_message]
        simp [hfirst, hrec]

/-! Erasing the unread marker from a display sequence. -/

theorem eraseUnread_append (l1 l2 : List DisplayItem) :
    eraseUnread (l1 ++ l2) = eraseUnread l1 ++ eraseUnread l2 := by
  simp [eraseUnread, List.filter_append]

theorem separatorsAux_empty_unread_flag :
    ∀ (msgs : List Message) (prev : Option Message) (f g : Bool),
      separatorsAux [] msgs prev f = separatorsAux [] msgs prev g := by
  intro msgs
  induction msgs with
  | nil => intro prev f g; rfl
  | cons m rest ih =>
    intro prev f g
    rw [separatorsAux_cons, separatorsAux_cons]
    simp only [contains_nil_str, Bool.false_and, Bool.or_false, if_neg Bool.false_ne_true]
    rw [ih (some m) f g]

theorem eraseUnread_aux (u : List String) :
    ∀ (msgs : List Message) (prev : Option Message) (added : Bool),
      eraseUnread (separatorsAux u msgs prev added) = separatorsAux [] msgs prev added := by
  intro msgs
  induction msgs with
  | nil => intro prev added; rfl
  | cons m rest ih =>
    intro prev added
    rw [separatorsAux_cons, separatorsAux_cons, eraseUnread_append, eraseUnread_append]
    have hdate : eraseUnread (match prev with
        | none => [DisplayItem.date m.timestamp]
        | some p =>
          if isSameDay p.timestamp m.timestamp then [] else [DisplayItem.date m.timestamp]) =
        (match prev with
        | none => [DisplayItem.date m.timestamp]
        | some p =>
          if isSameDay p.timestamp m.timestamp then [] else [DisplayItem.date m.timestamp]) := by
      cases prev with
      | none => rfl
      | some p =>
        by_cases h : isSameDay p.timestamp m.timestamp = true <;> simp [h, eraseUnread]
    have hun : eraseUnread (if u.contains m.id && !added then [DisplayItem.unread] else []) =
        [] := by
      split <;> rfl
    have hmsg : eraseUnread (DisplayItem.message m ::
        separatorsAux u rest (some m) (added || (u.contains m.id && !added))) =
        DisplayItem.message m ::
          eraseUnread (separatorsAux u rest (some m) (added || (u.contains m.id && !added))) :=
      rfl
    rw [hdate, hun, hmsg, ih]
    simp only [contains_nil_str, Bool.false_and, Bool.or_false, if_neg Bool.false_ne_true]
    rw [separatorsAux_empty_unread_flag rest (some m) (added || (u.contains m.id && !added)) added]

theorem chain_tripleLE_of_sorted {msgs : List Message}
    (h : List.Chain' (fun a b => dateLE a.timestamp b.timestamp = true) msgs) :
    List.Chain' tripleLE (msgs.map fun m => dayTriple m.timestamp) := by
  rw [List.chain'_map]
  exact h.imp fun a b hab => dateLE_tripleLE hab

/-! Counting and placing the unread marker. -/

theorem countUnread_append (l1 l2 : List DisplayItem) :
    countUnread (l1 ++ l2) = countUnread l1 + countUnread l2 := by
  simp [countUnread, List.filter_append]

theorem countUnread_aux (u : List String) :
    ∀ (msgs : List Message) (prev : Option Message) (added : Bool),
      countUnread (separatorsAux u msgs prev added) =
        if added then 0
        else if (msgs.find? fun x => u.contains x.id).isSome then 1 else 0 := by
  intro msgs
  induction msgs with
  | nil =>
    intro prev added
    rw [separatorsAux_nil]
    cases added <;> simp [countUnread]
  | cons m rest ih =>
    intro prev added
    rw [separatorsAux_cons, countUnread_append, countUnread_append]
    have hdate : countUnread (match prev with
        | none => [DisplayItem.date m.timestamp]
        | some p =>
          if isSameDay p.timestamp m.timestamp then [] else [DisplayItem.date m.timestamp]) =
        0 := by
      cases prev with
      | none => rfl
      | some p =>
        by_cases h : isSameDay p.timestamp m.timestamp = true <;> simp [h, countUnread]
    have hmsg : countUnread (DisplayItem.message m ::
        separatorsAux u rest (some m) (added || (u.contains m.id && !added))) =
        countUnread (separatorsAux u rest (some m) (added || (u.contains m.id && !added))) := by
      simp [countUnread]
    rw [hdate, hmsg, ih]
    cases added with
    | true => simp [countUnread]
    | false =>
      rw [List.find?_cons]
      by_cases hcm : m.id ∈ u
      · simp [hcm, countUnread]
      · simp [hcm, countUnread]

theorem unread_adjacent_aux (u : List String) :
    ∀ (msgs : List Message) (prev : Option Message) (m : Message),
      msgs.find? (fun x => u.contains x.id) = some m →
      ∃ s t, separatorsAux u msgs prev false =
        s ++ DisplayItem.unread :: DisplayItem.message m :: t := by
  intro msgs
  induction msgs with
  | nil =>
    intro prev m h
    simp at h
  | cons m1 rest ih =>
    intro prev m h
    rw [List.find?_cons] at h
    by_cases hcm : m1.id ∈ u
    · have hm : m1 = m := by
        simp [hcm] at h
        exact h
      subst hm
      refine ⟨(match prev with
        | none => [DisplayItem.date m1.timestamp]
        | some p =>
          if isSameDay p.timestamp m1.timestamp then [] else [DisplayItem.date m1.timestamp]),
        separatorsAux u rest (some m1) true, ?_⟩
      rw [separatorsAux_cons]
      simp [hcm]
    · have h2 : rest.find? (fun x => u.contains x.id) = some m := by
        simpa [hcm] using h
      obtain ⟨s, t, hst⟩ := ih (some m1) m h2
      refine ⟨(match prev with
        | none => [DisplayItem.date m1.timestamp]
        | some p =>
          if isSameDay p.timestamp m1.timestamp then [] else [DisplayItem.date m1.timestamp]) ++
        [DisplayItem.message m1] ++ s, t, ?_⟩
      rw [separatorsAux_cons]
      simp [hcm, hst]

/-! The message subsequence of the display sequence. -/

theorem extractMessages_append (l1 l2 : List DisplayItem) :
    extractMessages (l1 ++ l2) = extractMessages l1 ++ extractMessages l2 := by
  simp [extractMessages, List.filterMap_append]

theorem extractMessages_aux (u : List String) :
    ∀ (msgs : List Message) (prev : Option Message) (added : Bool),
      extractMessages (separatorsAux u msgs prev added) = msgs := by
  intro msgs
  induction msgs with
  | nil => intro prev added; rfl
  | cons m rest ih =>
    intro prev added
    rw [separatorsAux_cons]
    have hdate : extractMessages (match prev with
        | none => [DisplayItem.date m.timestamp]
        | some p =>
          if isSameDay p.timestamp m.timestamp then [] else [DisplayItem.date m.timestamp]) =
        [] := by
      cases prev with
      | none => rfl
      | some p =>
        by_cases h : isSameDay p.timestamp m.timestamp = true <;> simp [h, extractMessages]
    have hun : extractMessages
        (if u.contains m.id && !added then [DisplayItem.unread] else []) = [] := by
      split <;> rfl
    have hmsg : extractMessages (DisplayItem.message m ::
        separatorsAux u rest (some m) (added || (u.contains m.id && !added))) =
        m :: extractMessages (separatorsAux u rest (some m)
          (added || (u.contains m.id && !added))) := rfl
    rw [extractMessages_append, extractMessages_append, hdate, hun, hmsg, ih]
    rfl

/-! Concrete inputs used by witnesses and counterexamples. -/

/-- 2024-01-01 (month is 0-based as in JavaScript). -/
def dayOne : Date := ⟨2024, 0, 1, 0⟩

/-- 2024-01-02. -/
def dayTwo : Date := ⟨2024, 0, 2, 5⟩

/-- A plain text message with no media and no reply reference. -/
def mkMessage (id senderId : String) (text : Option String) (ts : Date) : Message :=
  ⟨id, senderId, text, none, none, none, none, none, ts, none, none, none⟩

def cex2MsgA : Message := mkMessage "a1" "alice" (some "hi") dayOne

def cex2MsgB : Message := mkMessage "b2" "bob" (some "yo") dayTwo

def cex2Messages : List Message := [cex2MsgA, cex2MsgB]

def cex2Unread : List String := ["b2"]

def wit3MsgA : Message := mkMessage "w1" "alice" (some "one") dayOne

def wit3MsgB : Message := mkMessage "w2" "bob" (some "two") dayOne

def wit3MsgC : Message := mkMessage "w3" "bob" (some "three") dayTwo

def wit3Messages : List Message := [wit3MsgA, wit3MsgB, wit3MsgC]

def wit3Unread : List String := ["w2", "w3"]

def cex3Messages : List Message := [mkMessage "c1" "carol" (some "hey") dayOne]

def cex3Unread : List String := ["ghost"]

/-! Claim C2. -/

/-- C2 (amended): for every timestamp-ordered message sequence and every
unread-id set, the grouper's output contains exactly `D` date markers, where
`D` is the number of distinct local calendar days spanned; and once the single
unread marker is set aside, each date marker immediately precedes the first
message of its day (it carries that message's timestamp).  The original claim,
which requires adjacency in the full output, fails when the earliest unread
message is the first message of its day: the unread marker then sits between
that date marker and the message (see the counterexample). -/
theorem claim_C2 (messages : List Message) (unreadIds : List String)
    (hsorted : List.Chain' (fun a b => dateLE a.timestamp b.timestamp = true) messages) :
    countDates (getMessagesWithDateSeparators messages unreadIds) = distinctDayCount messages ∧
    datesPrecedeFirsts messages
      (eraseUnread (getMessagesWithDateSeparators messages unreadIds)) = true := by
  constructor
  · rw [getMessagesWithDateSeparators, countDates_aux, distinctDayCount]
    exact keyChanges_none _ (chain_tripleLE_of_sorted hsorted)
  · rw [getMessagesWithDateSeparators, eraseUnread_aux]
    have h := datesPrecede_aux messages [] none false hsorted (fun _ => rfl)
      (fun p hp => nomatch hp) (fun p m mrest hp => nomatch hp)
    simpa using h

theorem cex2_sorted :
    List.Chain' (fun a b => dateLE a.timestamp b.timestamp = true) cex2Messages :=
  List.chain'_cons.mpr ⟨by decide, List.chain'_singleton _⟩

/-- C2, counterexample to the claim as stated: two timestamp-ordered messages
on distinct days with the second one unread.  The output is
[date(day 1), a1, date(day 2), unread, b2]: the second date marker is
immediately followed by the unread marker, not by the first message of its
day. -/
theorem claim_C2_cex :
    List.Chain' (fun a b => dateLE a.timestamp b.timestamp = true) cex2Messages ∧
    distinctDayCount cex2Messages = 2 ∧
    getMessagesWithDateSeparators cex2Messages cex2Unread =
      [DisplayItem.date dayOne, DisplayItem.message cex2MsgA,
       DisplayItem.date dayTwo, DisplayItem.unread, DisplayItem.message cex2MsgB] ∧
    datesPrecedeFirsts cex2Messages
      (getMessagesWithDateSeparators cex2Messages cex2Unread) = false := by
  refine ⟨cex2_sorted, ?_, ?_, ?_⟩ <;> decide

/-- C2, witness: the amended theorem applied to the concrete two-day chat. -/
theorem claim_C2_witness :
    countDates (getMessagesWithDateSeparators cex2Messages cex2Unread) =
      distinctDayCount cex2Messages ∧
    datesPrecedeFirsts cex2Messages
      (eraseUnread (getMessagesWithDateSeparators cex2Messages cex2Unread)) = true :=
  claim_C2 cex2Messages cex2Unread cex2_sorted

/-! Claim C3. -/

/-- C3 (amended): for every message list and unread-id set, if some message of
the list has its id in the unread set then the output contains exactly one
unread marker, placed immediately before the earliest such message (in
sequence order), and it is never repeated even if later messages are also
unread; if no message of the list is unread — in particular whenever the
unread set is empty — the output contains zero unread markers.  The original
claim, quantified over arbitrary unread-id sets, fails when the unread set is
non-empty but contains no id of the list (see the counterexample). -/
theorem claim_C3 (messages : List Message) (unreadIds : List String) :
    (∀ m, messages.find? (fun x => unreadIds.contains x.id) = some m →
      countUnread (getMessagesWithDateSeparators messages unreadIds) = 1 ∧
      ∃ s t, getMessagesWithDateSeparators messages unreadIds =
        s ++ DisplayItem.unread :: DisplayItem.message m :: t) ∧
    (messages.find? (fun x => unreadIds.contains x.id) = none →
      countUnread (getMessagesWithDateSeparators messages unreadIds) = 0) := by
  constructor
  · intro m hm
    constructor
    · rw [getMessagesWithDateSeparators, countUnread_aux, hm]
      rfl
    · exact unread_adjacent_aux unreadIds messages none m hm
  · intro hm
    rw [getMessagesWithDateSeparators, countUnread_aux, hm]
    rfl

/-- C3, counterexample to the claim as stated: a non-empty unread-id set none
of whose ids occurs in the message list yields zero unread markers, not
exactly one. -/
theorem claim_C3_cex :
    cex3Unread ≠ [] ∧
    countUnread (getMessagesWithDateSeparators cex3Messages cex3Unread) = 0 := by
  refine ⟨?_, ?_⟩ <;> decide

/-- C3, witness: in a chat with three messages of which the second and third
are unread, exactly one marker appears, immediately before the second
message. -/
theorem claim_C3_witness :
    countUnread (getMessagesWithDateSeparators wit3Messages wit3Unread) = 1 ∧
    ∃ s t, getMessagesWithDateSeparators wit3Messages wit3Unread =
      s ++ DisplayItem.unread :: DisplayItem.message wit3MsgB :: t :=
  (claim_C3 wit3Messages wit3Unread).1 wit3MsgB (by decide)

/-! Claim C9. -/

/-- C9 (confirmed): the presentation grouper is a pure function of the message
list and the unread-id set; two runs on equal inputs produce identical display
sequences.  In this embedding the grouper reads no state other than its two
arguments, so the property is definitional. -/
theorem claim_C9 (messages1 messages2 : List Message) (unread1 unread2 : List String)
    (hm : messages1 = messages2) (hu : unread1 = unread2) :
    getMessagesWithDateSeparators messages1 unread1 =
      getMessagesWithDateSeparators messages2 unread2 := by
  rw [hm, hu]

/-- C9, witness: the two runs on the concrete three-message chat coincide. -/
theorem claim_C9_witness :
    getMessagesWithDateSeparators wit3Messages wit3Unread =
      getMessagesWithDateSeparators wit3Messages wit3Unread :=
  claim_C9 wit3Messages wit3Messages wit3Unread wit3Unread rfl rfl

/-! Claim C10. -/

/-- C10 (confirmed): for every message list and unread-id set, the subsequence
of items tagged `message` in the grouper's output is exactly the input list —
no message is dropped, duplicated or reordered — and when the input list is
non-empty the first output item is a date marker (carrying the first message's
timestamp). -/
theorem claim_C10 (messages : List Message) (unreadIds : List String) :
    extractMessages (getMessagesWithDateSeparators messages unreadIds) = messages ∧
    (∀ m rest, messages = m :: rest →
      (getMessagesWithDateSeparators messages unreadIds).head? =
        some (DisplayItem.date m.timestamp)) := by
  constructor
  · exact extractMessages_aux unreadIds messages none false
  · intro m rest h
    subst h
    rfl

/-- C10, witness: on the concrete three-message chat the message subsequence
is the input and the output starts with the first day's date marker. -/
theorem claim_C10_witness :
    extractMessages (getMessagesWithDateSeparators wit3Messages wit3Unread) = wit3Messages ∧
    (getMessagesWithDateSeparators wit3Messages wit3Unread).head? =
      some (DisplayItem.date wit3MsgA.timestamp) := by
  have h := claim_C10 wit3Messages wit3Unread
  exact ⟨h.1, h.2 wit3MsgA [wit3MsgB, wit3MsgC] rfl⟩

/-! The Deletion Ledger and the per-delivery filter. -/

/-- Modelled from the spec: the Deletion Ledger (spec sections 3 and 4.2).
The service `src/services/deletionService` is not under `src/`; only its
callers are.  Per the spec it is a local-only record of (chatId, messageId)
pairs, with idempotent recording and pure membership tests. -/
def addLocalDeletedMessage (ledger : List (String × String)) (chatId messageId : String) :
    List (String × String) :=
  if (chatId, messageId) ∈ ledger then ledger else (chatId, messageId) :: ledger

/-- Modelled from the spec: `deletedIdsForChat` (spec section 4.2), the set of
message ids recorded as locally deleted for one chat. -/
def getDeletedMessagesForChat (ledger : List (String × String)) (chatId : String) :
    List String :=
  (ledger.filter fun e => e.1 == chatId).map fun e => e.2

/-- ChatWindow.tsx lines 80-84: on each delivery, drop every message whose id
is locally deleted for this chat or whose sender is blocked. -/
def filterDelivered (ledger : List (String × String)) (blockedUsers : List String)
    (chatId : String) (fetchedMessages : List Message) : List Message :=
  let deletedLocally := getDeletedMessagesForChat ledger chatId
  fetchedMessages.filter fun msg =>
    !deletedLocally.contains msg.id && !blockedUsers.contains msg.senderId

theorem mem_deleted_after_add (ledger : List (String × String)) (chatId messageId : String) :
    messageId ∈ getDeletedMessagesForChat (addLocalDeletedMessage ledger chatId messageId)
      chatId := by
  unfold addLocalDeletedMessage getDeletedMessagesForChat
  by_cases h : (chatId, messageId) ∈ ledger
  · rw [if_pos h]
    exact List.mem_map.mpr ⟨(chatId, messageId), List.mem_filter.mpr ⟨h, by simp⟩, rfl⟩
  · rw [if_neg h]
    exact List.mem_map.mpr
      ⟨(chatId, messageId), List.mem_filter.mpr ⟨List.mem_cons_self _ _, by simp⟩, rfl⟩

/-! Claim C4. -/

/-- C4 (confirmed): the published batch is exactly the delivered batch minus
the messages whose id is in the Deletion Ledger for this chat or whose sender
is in the block set (first conjunct, and the sublist fact: order preserved, no
duplication); once a deletion is recorded, no message with that id survives
the filter on any redelivery (second conjunct); messages never locally deleted
and not blocked pass through (first conjunct, right to left). -/
theorem claim_C4 (ledger : List (String × String)) (blockedUsers : List String)
    (chatId : String) (fetchedMessages : List Message) :
    (∀ m, m ∈ filterDelivered ledger blockedUsers chatId fetchedMessages ↔
      (m ∈ fetchedMessages ∧
        (getDeletedMessagesForChat ledger chatId).contains m.id = false ∧
        blockedUsers.contains m.senderId = false)) ∧
    (∀ messageId m,
      m ∈ filterDelivered (addLocalDeletedMessage ledger chatId messageId) blockedUsers
          chatId fetchedMessages → m.id ≠ messageId) ∧
    List.Sublist (filterDelivered ledger blockedUsers chatId fetchedMessages)
      fetchedMessages := by
  refine ⟨?_, ?_, ?_⟩
  · intro m
    simp [filterDelivered, List.mem_filter]
  · intro messageId m hm heq
    have hthis := (List.mem_filter.mp hm).2
    simp only [Bool.and_eq_true, Bool.not_eq_true'] at hthis
    have h1 := hthis.1
    rw [heq] at h1
    have hcont : (getDeletedMessagesForChat (addLocalDeletedMessage ledger chatId messageId)
        chatId).contains messageId = true := by
      simpa using mem_deleted_after_add ledger chatId messageId
    rw [h1] at hcont
    exact Bool.false_ne_true hcont
  · exact List.filter_sublist _

def wChat : String := "c"

def wDelId : String := "a1"

def wMsgA : Message := mkMessage "a1" "alice" (some "one") dayOne

def wMsgB : Message := mkMessage "b1" "bob" (some "two") dayOne

def wMsgC : Message := mkMessage "c1" "carol" (some "three") dayOne

def wFetched : List Message := [wMsgA, wMsgB, wMsgC]

def wBlocked : List String := ["bob"]

/-- C4, witness: with an empty ledger and bob blocked, the filter
characterization holds for alice's message, and after locally deleting id
`a1` the messages surviving a redelivery do not carry that id. -/
theorem claim_C4_witness :
    (wMsgA ∈ filterDelivered [] wBlocked wChat wFetched ↔
      (wMsgA ∈ wFetched ∧
        (getDeletedMessagesForChat [] wChat).contains wMsgA.id = false ∧
        wBlocked.contains wMsgA.senderId = false)) ∧
    wMsgC.id ≠ wDelId := by
  have h := claim_C4 [] wBlocked wChat wFetched
  exact ⟨h.1 wMsgA, h.2.1 wDelId wMsgC (by decide)⟩

/-! The Translation Overlay applied to one delivery. -/

/-- ChatWindow.tsx lines 90-96: a message not authored by the current user and
carrying (truthy, i.e. non-empty) text gets `translatedText` attached, spread
over the otherwise unchanged record; every other message is returned as is.
`translateText` is the external translation service (contract only). -/
def translateMessage (translateText : String → String → String)
    (currentUserUid targetLanguage : String) (msg : Message) : Message :=
  match msg.originalText with
  | some text =>
    if msg.senderId ≠ currentUserUid ∧ text ≠ "" then
      { msg with translatedText := some (translateText text targetLanguage) }
    else msg
  | none => msg

/-- ChatWindow.tsx lines 86-99: the translation branch of the subscription
callback.  When translation is enabled the batch published is the filtered
batch with `translateMessage` applied to every element (the `Promise.all`
publishes the fully processed batch); otherwise the filtered batch is
published unchanged. -/
def processDelivery (translateText : String → String → String)
    (currentUserUid targetLanguage : String) (translationEnabled : Bool)
    (filteredMessages : List Message) : List Message :=
  if translationEnabled then
    filteredMessages.map (translateMessage translateText currentUserUid targetLanguage)
  else filteredMessages

/-! Claim C5. -/

/-- C5 (confirmed): with translation enabled, the published batch maps every
filtered message through the translation transform; a message not authored by
the current user and carrying text comes out with `translatedText` set to the
translation of its `originalText` into the target language and every other
field (including `originalText`) unchanged; a message authored by the current
user or without text passes through unmodified. -/
theorem claim_C5 (translateText : String → String → String) (uid lang : String)
    (msgs : List Message) :
    processDelivery translateText uid lang true msgs =
      msgs.map (translateMessage translateText uid lang) ∧
    (∀ m text, m.senderId ≠ uid → m.originalText = some text → text ≠ "" →
      translateMessage translateText uid lang m =
        { m with translatedText := some (translateText text lang) }) ∧
    (∀ m, m.senderId = uid ∨ m.originalText = none ∨ m.originalText = some "" →
      translateMessage translateText uid lang m = m) := by
  refine ⟨rfl, ?_, ?_⟩
  · intro m text hs ht hne
    simp only [translateMessage, ht]
    rw [if_pos ⟨hs, hne⟩]
  · intro m hm
    rcases hm with hm | hm | hm
    · cases ht : m.originalText with
      | none => simp only [translateMessage, ht]
      | some t =>
        simp only [translateMessage, ht]
        rw [if_neg fun hand => hand.1 hm]
    · simp only [translateMessage, hm]
    · simp only [translateMessage, hm]
      rw [if_neg fun hand => hand.2 rfl]

def witUid : String := "me"

def witLang : String := "en"

def witTranslate : String → String → String := fun text lang => String.append lang text

def witHola : Message := mkMessage "h1" "maria" (some "Hola") dayOne

/-- C5, witness: a foreign-authored message carrying the text Hola is
published with `translatedText` attached and nothing else changed. -/
theorem claim_C5_witness :
    translateMessage witTranslate witUid witLang witHola =
      { witHola with translatedText := some (witTranslate "Hola" witLang) } ∧
    processDelivery witTranslate witUid witLang true [witHola] =
      [witHola].map (translateMessage witTranslate witUid witLang) := by
  have h := claim_C5 witTranslate witUid witLang [witHola]
  exact ⟨h.2.1 witHola "Hola" (by decide) rfl (by decide), h.1⟩

/-! The translation toggle handler. -/

/-- The component state of ChatWindow touched by `handleToggleTranslation`:
the message list (line 49), the translation flag and target language (lines
50-51) and the settings dialog flag (line 52). -/
structure ChatWindowState where
  messages : List Message
  translationEnabled : Bool
  targetLanguage : String
  showSettings : Bool
deriving DecidableEq, Repr

/-- ChatWindow.tsx lines 186-195: toggling while disabled opens the settings
dialog; toggling while enabled turns the flag off and echoes the setting to
the backend (`updateTranslationSettings`, a fire-and-forget call with no
effect on component state).  The `messages` state is not touched in either
branch. -/
def handleToggleTranslation (s : ChatWindowState) : ChatWindowState :=
  if !s.translationEnabled then
    { s with showSettings := true }
  else
    { s with translationEnabled := false }

/-! Claim C6. -/

/-- C6 (confirmed): toggling translation off leaves the rendered message list
untouched; in particular every message that carried a `translatedText`
annotation before the toggle still carries it afterwards.  (A later
redelivery by the re-established subscription is a separate event and is not
part of the toggle itself.) -/
theorem claim_C6 (s : ChatWindowState) (h : s.translationEnabled = true) :
    (handleToggleTranslation s).messages = s.messages ∧
    ∀ m ∈ s.messages, m.translatedText.isSome = true →
      m ∈ (handleToggleTranslation s).messages ∧ m.translatedText.isSome = true := by
  have hval : handleToggleTranslation s = { s with translationEnabled := false } := by
    unfold handleToggleTranslation
    rw [h]
    rfl
  rw [hval]
  exact ⟨rfl, fun m hm ht => ⟨hm, ht⟩⟩

def wTransMsg : Message :=
  ⟨"t1", "maria", some "Hola", some "Hello", none, none, none, none, dayOne, none, none, none⟩

def wToggleState : ChatWindowState := ⟨[wTransMsg], true, "en", false⟩

/-- C6, witness: toggling off with one already-translated message in view
keeps the message, annotation included. -/
theorem claim_C6_witness :
    (handleToggleTranslation wToggleState).messages = wToggleState.messages ∧
    (wTransMsg ∈ (handleToggleTranslation wToggleState).messages ∧
      wTransMsg.translatedText.isSome = true) := by
  have h := claim_C6 wToggleState rfl
  exact ⟨h.1, h.2 wTransMsg (by decide) (by decide)⟩

/-! The Chat List Aggregator. -/

/-- A user profile as resolved by `getUser` (only the fields the aggregation
needs). -/
structure User where
  uid : String
  displayName : String
deriving DecidableEq, Repr

/-- The `Chat` record (spec section 3) as read by the ChatList callback. -/
structure Chat where
  id : String
  participants : List String
  lastMessage : String
  lastMessageTime : Date
  deletedAt : Option Date
deriving DecidableEq, Repr

/-- A listed chat: the chat spread together with the counterpart profile and
the unread count (`{ ...chat, otherUser, unreadCount }`). -/
structure ChatWithUser where
  chat : Chat
  otherUser : User
  unreadCount : Nat
deriving DecidableEq, Repr

/-- src/unnamed/part_000 lines 52-71: the per-chat enrichment of the
`getUserChats` callback.  A chat is dropped (the TS code returns null) when it
carries a `deletedAt` marker, when no participant other than the current user
exists, when the counterpart profile is unresolvable, or when the chat has no
messages; otherwise it is kept with the counterpart profile and the unread
count.  The backend reads `getUser`, `hasChatMessages` and `getUnreadCount`
are the external collaborators, passed as functions. -/
def enrichChat (getUser : String → Option User) (hasChatMessages : String → Bool)
    (getUnreadCount : String → String → Nat) (currentUid : String) (chat : Chat) :
    Option ChatWithUser :=
  if chat.deletedAt.isSome then none
  else
    match chat.participants.find? (fun pid => pid != currentUid) with
    | none => none
    | some otherUserId =>
      match getUser otherUserId with
      | none => none
      | some otherUser =>
        if hasChatMessages chat.id then
          some ⟨chat, otherUser, getUnreadCount chat.id currentUid⟩
        else none

/-- src/unnamed/part_000 lines 50-74: the chats mapped through the enrichment
with the null results filtered out. -/
def aggregateChats (getUser : String → Option User) (hasChatMessages : String → Bool)
    (getUnreadCount : String → String → Nat) (currentUid : String)
    (fetchedChats : List Chat) : List ChatWithUser :=
  fetchedChats.filterMap (enrichChat getUser hasChatMessages getUnreadCount currentUid)

theorem aggregate_mem (getUser : String → Option User) (hasChatMessages : String → Bool)
    (getUnreadCount : String → String → Nat) (currentUid : String) (chats : List Chat) :
    ∀ cw ∈ aggregateChats getUser hasChatMessages getUnreadCount currentUid chats,
      cw.chat ∈ chats ∧ cw.chat.deletedAt = none ∧
      hasChatMessages cw.chat.id = true ∧
      (∃ oid, cw.chat.participants.find? (fun pid => pid != currentUid) = some oid ∧
        getUser oid = some cw.otherUser) ∧
      cw.unreadCount = getUnreadCount cw.chat.id currentUid := by
  intro cw hcw
  obtain ⟨chat, hchat, henr⟩ := List.mem_filterMap.mp hcw
  unfold enrichChat at henr
  by_cases hdel : chat.deletedAt.isSome
  · rw [if_pos hdel] at henr
    nomatch henr
  · rw [if_neg hdel] at henr
    have hdelnone : chat.deletedAt = none := Option.not_isSome_iff_eq_none.mp hdel
    cases hfind : chat.participants.find? (fun pid => pid != currentUid) with
    | none =>
      simp only [hfind] at henr
      nomatch henr
    | some oid =>
      simp only [hfind] at henr
      cases hgu : getUser oid with
      | none =>
        simp only [hgu] at henr
        nomatch henr
      | some ou =>
        simp only [hgu] at henr
        by_cases hmsg : hasChatMessages chat.id = true
        · rw [if_pos hmsg] at henr
          have hcw2 : cw = ⟨chat, ou, getUnreadCount chat.id currentUid⟩ :=
            (Option.some.inj henr).symm
          subst hcw2
          exact ⟨hchat, hdelnone, hmsg, ⟨oid, hfind, hgu⟩, rfl⟩
        · rw [if_neg hmsg] at henr
          nomatch henr

/-! Claim C7. -/

/-- C7 (confirmed): every listed chat belongs to the user's chat set, carries
no `deletedAt` marker, has a resolvable counterpart whose profile it carries,
has at least one message, and carries the unread count (first conjunct); the
enrichment drops a chat exactly when it is marked deleted, has no other
identifiable participant, has an unresolvable counterpart, or has no messages
(second conjunct); in particular a chat with zero exchanged messages never
appears in the aggregated list, regardless of its participants (third
conjunct). -/
theorem claim_C7 (getUser : String → Option User) (hasChatMessages : String → Bool)
    (getUnreadCount : String → String → Nat) (currentUid : String) (chats : List Chat) :
    (∀ cw ∈ aggregateChats getUser hasChatMessages getUnreadCount currentUid chats,
      cw.chat ∈ chats ∧ cw.chat.deletedAt = none ∧
      hasChatMessages cw.chat.id = true ∧
      (∃ oid, cw.chat.participants.find? (fun pid => pid != currentUid) = some oid ∧
        getUser oid = some cw.otherUser) ∧
      cw.unreadCount = getUnreadCount cw.chat.id currentUid) ∧
    (∀ chat, enrichChat getUser hasChatMessages getUnreadCount currentUid chat = none ↔
      (chat.deletedAt.isSome ∨
       chat.participants.find? (fun pid => pid != currentUid) = none ∨
       (∃ oid, chat.participants.find? (fun pid => pid != currentUid) = some oid ∧
         getUser oid = none) ∨
       hasChatMessages chat.id = false)) ∧
    (∀ chat ∈ chats, hasChatMessages chat.id = false →
      ∀ cw ∈ aggregateChats getUser hasChatMessages getUnreadCount currentUid chats,
        cw.chat ≠ chat) := by
  refine ⟨aggregate_mem getUser hasChatMessages getUnreadCount currentUid chats, ?_, ?_⟩
  · intro chat
    unfold enrichChat
    by_cases hdel : chat.deletedAt.isSome
    · rw [if_pos hdel]
      simp [hdel]
    · rw [if_neg hdel]
      cases hfind : chat.participants.find? (fun pid => pid != currentUid) with
      | none => simp [hfind, hdel]
      | some oid =>
        cases hgu : getUser oid with
        | none => simp [hfind, hgu, hdel]
        | some ou =>
          by_cases hmsg : hasChatMessages chat.id = true
          · simp [hfind, hgu, hmsg, hdel]
          · simp only [Bool.not_eq_true] at hmsg
            simp [hfind, hgu, hmsg, hdel]
  · intro chat hchat hmsg cw hcw heq
    have h := aggregate_mem getUser hasChatMessages getUnreadCount currentUid chats cw hcw
    rw [heq, hmsg] at h
    exact Bool.false_ne_true h.2.2.1

def wUid1 : String := "u1"

def wUserB : User := ⟨"u2", "Bea"⟩

def wGetUser : String → Option User := fun uid => if uid == "u2" then some wUserB else none

def wHasMessages : String → Bool := fun cid => cid == "chatA"

def wUnreadCount : String → String → Nat := fun _ _ => 3

def wChatA : Chat := ⟨"chatA", ["u1", "u2"], "hi", dayOne, none⟩

def wChatEmpty : Chat := ⟨"chatB", ["u1", "u2"], "", dayOne, none⟩

def wChats : List Chat := [wChatA, wChatEmpty]

def wCW : ChatWithUser := ⟨wChatA, wUserB, 3⟩

/-- C7, witness: with two valid chats of which only `chatA` has messages, the
listed entry for `chatA` carries Bea's profile and the unread count, and the
message-less `chatB` is absent from the aggregated list. -/
theorem claim_C7_witness :
    (wCW.chat ∈ wChats ∧ wCW.chat.deletedAt = none ∧
      wHasMessages wCW.chat.id = true ∧
      (∃ oid, wCW.chat.participants.find? (fun pid => pid != wUid1) = some oid ∧
        wGetUser oid = some wCW.otherUser) ∧
      wCW.unreadCount = wUnreadCount wCW.chat.id wUid1) ∧
    (∀ cw ∈ aggregateChats wGetUser wHasMessages wUnreadCount wUid1 wChats,
      cw.chat ≠ wChatEmpty) := by
  have h := claim_C7 wGetUser wHasMessages wUnreadCount wUid1 wChats
  exact ⟨h.1 wCW (by decide), fun cw hcw => h.2.2 wChatEmpty (by decide) (by decide) cw hcw⟩

/-! The Read-State Tracker on chat open. -/

/-- The read-state visible to ChatWindow on chat open: the backend unread set
for (chat, current user), the component's `unreadMessageIds` state (line 56)
and the `hasMarkedAsReadRef` guard (line 58). -/
structure ReadTrackerState where
  backendUnread : List String
  unreadMessageIds : List String
  hasMarkedAsRead : Bool
deriving DecidableEq, Repr

/-- ChatWindow.tsx lines 66-68: the guard-reset effect, run when the chat id
changes (and on mount). -/
def runGuardReset (s : ReadTrackerState) : ReadTrackerState :=
  { s with hasMarkedAsRead := false }

/-- ChatWindow.tsx lines 73-78: the synchronous part of the snapshot step.
When the guard is clear it issues the `getUnreadMessages` request — returned
here as the ids the backend will answer with, requests being served in issue
order — and sets the guard. -/
def runSnapshotEffect (s : ReadTrackerState) : ReadTrackerState × Option (List String) :=
  if s.hasMarkedAsRead then (s, none)
  else ({ s with hasMarkedAsRead := true }, some s.backendUnread)

/-- ChatWindow.tsx lines 74-76, continuation: the `getUnreadMessages` promise
resolves and `setUnreadMessageIds` stores the snapshot. -/
def resolveGetUnread (s : ReadTrackerState) (ids : List String) : ReadTrackerState :=
  { s with unreadMessageIds := ids }

/-- ChatWindow.tsx lines 111-117: the `markMessagesAsRead` call resolves; the
backend unread set is now empty and the continuation on line 114 sets
`unreadMessageIds` to the empty set. -/
def resolveMarkRead (s : ReadTrackerState) : ReadTrackerState :=
  { s with backendUnread := [], unreadMessageIds := [] }

/-- The chat-open sequence up to the snapshot resolution, with backend
requests served in issue order (single-threaded event loop): guard reset,
snapshot effect — whose `getUnreadMessages` request is issued before the
`markMessagesAsRead` effect of line 113 issues its call — then the snapshot
resolution.  This is the state in which the unread separator is rendered. -/
def stateAfterSnapshotResolves (s0 : ReadTrackerState) : ReadTrackerState :=
  let step := runSnapshotEffect (runGuardReset s0)
  resolveGetUnread step.1 (step.2.getD step.1.unreadMessageIds)

/-- The state after the `markMessagesAsRead` call has also resolved. -/
def stateAfterMarkReadResolves (s0 : ReadTrackerState) : ReadTrackerState :=
  resolveMarkRead (stateAfterSnapshotResolves s0)

/-! Claim C1. -/

/-- C1 (amended): on chat open the snapshot request is issued before the
mark-as-read call (snapshot-then-clear), so once the snapshot resolves the
local unread set equals the backend unread set captured before the clear and
the unread marker is rendered immediately before the earliest unread message.
The snapshot IS however invalidated when the mark-as-read call resolves: the
continuation of `markMessagesAsRead` clears `unreadMessageIds`, and the
displayed sequence no longer contains any unread marker.  The original
claim — that the marker remains even after the mark-as-read call resolves —
fails (see the counterexample). -/
theorem claim_C1 (s0 : ReadTrackerState) (messages : List Message) (m : Message)
    (hfind : messages.find? (fun x => s0.backendUnread.contains x.id) = some m) :
    (stateAfterSnapshotResolves s0).unreadMessageIds = s0.backendUnread ∧
    (∃ s t, getMessagesWithDateSeparators messages
        (stateAfterSnapshotResolves s0).unreadMessageIds =
      s ++ DisplayItem.unread :: DisplayItem.message m :: t) ∧
    (stateAfterMarkReadResolves s0).unreadMessageIds = [] ∧
    countUnread (getMessagesWithDateSeparators messages
      (stateAfterMarkReadResolves s0).unreadMessageIds) = 0 := by
  have h1 : (stateAfterSnapshotResolves s0).unreadMessageIds = s0.backendUnread := rfl
  have h2 : (stateAfterMarkReadResolves s0).unreadMessageIds = [] := rfl
  refine ⟨h1, ?_, h2, ?_⟩
  · rw [h1]
    exact unread_adjacent_aux s0.backendUnread messages none m hfind
  · rw [h2, getMessagesWithDateSeparators, countUnread_aux]
    have hnone : messages.find? (fun x => (([] : List String)).contains x.id) = none := by
      rw [List.find?_eq_none]
      intro x hx
      simp
    rw [hnone]
    rfl

def cex1MsgOne : Message := mkMessage "r1" "bob" (some "first") dayOne

def cex1MsgTwo : Message := mkMessage "r2" "bob" (some "second") dayOne

def cex1Messages : List Message := [cex1MsgOne, cex1MsgTwo]

def cex1Start : ReadTrackerState := ⟨["r1", "r2"], [], false⟩

/-- C1, counterexample to the claim as stated: with unread messages m1, m2 on
chat open, the marker is rendered once the snapshot resolves, but after the
mark-as-read call resolves the local unread set is empty and the displayed
sequence contains no unread marker at all — the snapshot does not survive the
mark-as-read resolution. -/
theorem claim_C1_cex :
    countUnread (getMessagesWithDateSeparators cex1Messages
      (stateAfterSnapshotResolves cex1Start).unreadMessageIds) = 1 ∧
    (stateAfterMarkReadResolves cex1Start).unreadMessageIds = [] ∧
    getMessagesWithDateSeparators cex1Messages
        (stateAfterMarkReadResolves cex1Start).unreadMessageIds =
      [DisplayItem.date dayOne, DisplayItem.message cex1MsgOne,
        DisplayItem.message cex1MsgTwo] ∧
    countUnread (getMessagesWithDateSeparators cex1Messages
      (stateAfterMarkReadResolves cex1Start).unreadMessageIds) = 0 := by
  refine ⟨?_, ?_, ?_, ?_⟩ <;> decide

/-- C1, witness: the amended theorem applied to the concrete chat with both
messages unread on open. -/
theorem claim_C1_witness :
    (stateAfterSnapshotResolves cex1Start).unreadMessageIds = cex1Start.backendUnread ∧
    (∃ s t, getMessagesWithDateSeparators cex1Messages
        (stateAfterSnapshotResolves cex1Start).unreadMessageIds =
      s ++ DisplayItem.unread :: DisplayItem.message cex1MsgOne :: t) ∧
    (stateAfterMarkReadResolves cex1Start).unreadMessageIds = [] ∧
    countUnread (getMessagesWithDateSeparators cex1Messages
      (stateAfterMarkReadResolves cex1Start).unreadMessageIds) = 0 :=
  claim_C1 cex1Start cex1Messages cex1MsgOne (by decide)

/-! The snapshot guard across effect re-runs. -/

/-- One cause of an effect re-run within a mounted ChatWindow: a change of
translation flag, target language, current user or block set re-runs only the
subscription effect (dependency list on line 105); a chat-id change re-runs
the guard-reset effect (lines 66-68, dependency list [chatId]) and then the
subscription effect. -/
inductive WindowEvent where
  | configChange
  | chatChange
deriving DecidableEq, Repr

/-- The guard `hasMarkedAsReadRef` (line 58) together with a count of how many
times the snapshot step (the `getUnreadMessages` fetch of lines 74-76) has
executed. -/
structure SnapshotGuardState where
  hasMarkedAsRead : Bool
  snapshotRuns : Nat
deriving DecidableEq, Repr

/-- ChatWindow.tsx lines 73-78: the subscription effect runs the snapshot step
only when the guard is clear, then sets the guard. -/
def runSubscriptionEffect (s : SnapshotGuardState) : SnapshotGuardState :=
  if s.hasMarkedAsRead then s
  else ⟨true, s.snapshotRuns + 1⟩

/-- Effects triggered by one re-run cause, in declaration order. -/
def stepEvent (s : SnapshotGuardState) : WindowEvent → SnapshotGuardState
  | WindowEvent.configChange => runSubscriptionEffect s
  | WindowEvent.chatChange => runSubscriptionEffect { s with hasMarkedAsRead := false }

def runEvents (s : SnapshotGuardState) (events : List WindowEvent) : SnapshotGuardState :=
  events.foldl stepEvent s

/-- The state right after mounting a chat: the guard-reset effect and the
subscription effect have each run once. -/
def mountedState : SnapshotGuardState := runSubscriptionEffect ⟨false, 0⟩

theorem runEvents_config_only :
    ∀ (events : List WindowEvent) (s : SnapshotGuardState), s.hasMarkedAsRead = true →
      (∀ e ∈ events, e = WindowEvent.configChange) → runEvents s events = s := by
  intro events
  induction events with
  | nil => intro s _ _; rfl
  | cons e rest ih =>
    intro s hs hall
    have he : e = WindowEvent.configChange := hall e (List.mem_cons_self _ _)
    subst he
    have hstep : stepEvent s WindowEvent.configChange = s := by
      unfold stepEvent runSubscriptionEffect
      rw [hs]
      rfl
    unfold runEvents
    rw [List.foldl_cons, hstep]
    exact ih s hs fun e he => hall e (List.mem_cons_of_mem _ he)

/-! Claim C8. -/

/-- C8 (confirmed): the snapshot step runs exactly once per chat-open.  The
mount executes it once; afterwards the guard is set and any sequence of
subscription-effect re-runs caused by translation-flag, target-language,
current-user or block-set changes leaves the whole guard state — in particular
the number of snapshot executions — unchanged.  Only a chat-id change resets
the guard. -/
theorem claim_C8 (events : List WindowEvent)
    (hconfig : ∀ e ∈ events, e = WindowEvent.configChange) :
    runEvents mountedState events = mountedState ∧ mountedState.snapshotRuns = 1 :=
  ⟨runEvents_config_only events mountedState rfl hconfig, rfl⟩

/-- C8, witness: two consecutive configuration changes re-run the subscription
effect without re-executing the snapshot. -/
theorem claim_C8_witness :
    runEvents mountedState [WindowEvent.configChange, WindowEvent.configChange] =
      mountedState ∧ mountedState.snapshotRuns = 1 :=
  claim_C8 [WindowEvent.configChange, WindowEvent.configChange] (by decide)

end TransChat
